import Mathlib

/-!
Verification of the Line-Based List/Paragraph Renderer
(`format_diagnosis_to_html` in `diagnose_and_generate_html.py`).

The renderer is embedded shallowly over `List Char`:
  * `pyStrip` models Python's `str.strip()` (whitespace trimming at both ends);
  * `splitLines` models `str.split('\n')` (keeping empty segments);
  * `splitStars` locates the leftmost occurrence of the two-character
    delimiter `**` in a line, which is the primitive underlying the regex
    substitution `re.sub(r'\*\*(.*?)\*\*', r'<b>\1</b>', line)`;
  * `subBold` models that substitution on a single line (lines produced by
    `splitLines` never contain a newline, which is the domain on which the
    regex's dot-excludes-newline convention is irrelevant);
  * `processLines` models the main `for` loop with its `in_list` flag and
    the post-loop flush;
  * `formatCore` / `format_diagnosis_to_html` assemble the whole function.
-/

/-- Whitespace recognizer modelling Python's `str.strip()` default set
(ASCII range: space, tab, newline, carriage return, vertical tab, form feed). -/
def isSpace (c : Char) : Bool :=
  c = ' ' || c = '\t' || c = '\n' || c = '\r' || c = '\x0b' || c = '\x0c'

/-- Python `str.strip()`: drop whitespace from both ends. -/
def pyStrip (cs : List Char) : List Char :=
  ((cs.dropWhile isSpace).reverse.dropWhile isSpace).reverse

/-- Python `str.split('\n')`: split on newline, keeping empty segments
(`''.split('\n') = ['']`). -/
def splitLines : List Char → List (List Char)
  | [] => [[]]
  | c :: rest =>
    if c = '\n' then [] :: splitLines rest
    else
      match splitLines rest with
      | [] => [[c]]
      | l :: ls => (c :: l) :: ls

/-- Leftmost occurrence of the two-character delimiter `**`:
`splitStars cs = some (pre, rest)` when `cs = pre ++ '*' :: '*' :: rest`
and `pre` contains no earlier occurrence; `none` when `cs` has no `**`. -/
def splitStars : List Char → Option (List Char × List Char)
  | [] => none
  | [_] => none
  | c1 :: c2 :: rest =>
    if c1 = '*' ∧ c2 = '*' then some ([], rest)
    else
      match splitStars (c2 :: rest) with
      | none => none
      | some (pre, r) => some (c1 :: pre, r)

/-- Fuelled worker for the bold substitution: find the opening `**`, then the
next `**` after it (non-greedy close); wrap the enclosed text in `<b>...</b>`
and continue after the match, exactly as `re.sub` does. If the opening `**`
has no later `**` to pair with, no match exists anywhere (any later `**`
would itself lie in the searched remainder), so the line is left unchanged. -/
def subBoldFuel : Nat → List Char → List Char
  | 0, cs => cs
  | Nat.succ fuel, cs =>
    match splitStars cs with
    | none => cs
    | some (pre, rest) =>
      match splitStars rest with
      | none => cs
      | some (content, rest2) =>
        pre ++ '<' :: 'b' :: '>' :: (content ++ '<' :: '/' :: 'b' :: '>' :: subBoldFuel fuel rest2)

/-- `re.sub(r'\*\*(.*?)\*\*', r'<b>\1</b>', cs)` on a single (newline-free)
line. Each match consumes at least four characters, so `cs.length` fuel
always suffices. -/
def subBold (cs : List Char) : List Char :=
  subBoldFuel cs.length cs

/-- The open-list marker `<ul>`. -/
def ulOpen : List Char := ['<', 'u', 'l', '>']

/-- The close-list marker `</ul>`. -/
def ulClose : List Char := ['<', '/', 'u', 'l', '>']

/-- The list-item element `f'<li>{content}</li>'`. -/
def liWrap (content : List Char) : List Char :=
  '<' :: 'l' :: 'i' :: '>' :: (content ++ ['<', '/', 'l', 'i', '>'])

/-- The paragraph element `f'<p>{processed_line}</p>'`. -/
def pWrap (content : List Char) : List Char :=
  '<' :: 'p' :: '>' :: (content ++ ['<', '/', 'p', '>'])

/-- `processed_line.startswith('- ') or processed_line.startswith('* ')`. -/
def startsWithBullet (cs : List Char) : Bool :=
  match cs with
  | c1 :: c2 :: _ => (c1 = '-' || c1 = '*') && c2 = ' '
  | _ => false

/-- The main loop of `format_diagnosis_to_html` (source lines 23–49):
for each line, strip it; a blank line closes an open list and emits nothing;
otherwise apply the bold substitution, then either emit a list item (opening
a list first when not already inside one) or close any open list and emit a
paragraph. After the last line, an open list is flushed closed. -/
def processLines : List (List Char) → Bool → List (List Char)
  | [], inList => if inList then [ulClose] else []
  | line :: rest, inList =>
    if (pyStrip line).isEmpty then
      (if inList then [ulClose] else []) ++ processLines rest false
    else if startsWithBullet (subBold (pyStrip line)) then
      (if inList then [] else [ulOpen]) ++
        liWrap (pyStrip (List.drop 2 (subBold (pyStrip line)))) :: processLines rest true
    else
      (if inList then [ulClose] else []) ++ pWrap (subBold (pyStrip line)) :: processLines rest false

/-- `'\n'.join(html_lines)`. -/
def joinNL : List (List Char) → List Char
  | [] => []
  | [l] => l
  | l :: ls => l ++ '\n' :: joinNL ls

/-- The ordered sequence of HTML block strings emitted for an input:
`diagnosis_text.strip().split('\n')` fed to the main loop. -/
def htmlBlocks (input : List Char) : List (List Char) :=
  processLines (splitLines (pyStrip input)) false

/-- `format_diagnosis_to_html` at the character-list level. -/
def formatCore (input : List Char) : List Char :=
  joinNL (htmlBlocks input)

/-- The renderer as a function on strings, as in the source. -/
def format_diagnosis_to_html (s : String) : String :=
  String.mk (formatCore s.data)

/-- The content of the list-item element emitted for a list-item line:
bold substitution on the full trimmed line, then the 2-character bullet
prefix removed, then the remainder trimmed (source line 40). -/
def liContent (line : List Char) : List Char :=
  pyStrip (List.drop 2 (subBold (pyStrip line)))

/-- Kind of a line, per the spec's data model. -/
inductive LineKind where
  | blank
  | item
  | par
  deriving DecidableEq

/-- Classification by the trimmed form of the raw line alone, as the spec
states it: blank iff the trimmed form is empty, list-item iff the trimmed
form starts with `"- "` or `"* "`, paragraph otherwise. -/
def classifySpec (line : List Char) : LineKind :=
  if (pyStrip line).isEmpty then LineKind.blank
  else if startsWithBullet (pyStrip line) then LineKind.item
  else LineKind.par

/-- Classification as the implementation performs it (source lines 24–35):
the blank test on the stripped line, the bullet test on the line after the
bold substitution. -/
def classifyImpl (line : List Char) : LineKind :=
  if (pyStrip line).isEmpty then LineKind.blank
  else if startsWithBullet (subBold (pyStrip line)) then LineKind.item
  else LineKind.par

/-- Abstract tag of an emitted block, read off from its first two
characters (the four block shapes `<ul>`, `</ul>`, `<li>…`, `<p>…` are
distinguished by their second character). -/
inductive BTag where
  | openUl
  | closeUl
  | item
  | par
  deriving DecidableEq

def tagOf : List Char → BTag
  | '<' :: 'u' :: _ => BTag.openUl
  | '<' :: '/' :: _ => BTag.closeUl
  | '<' :: 'l' :: _ => BTag.item
  | _ => BTag.par

/-- Well-nesting checker for a block sequence at a given list depth:
an open-list marker is legal only at depth 0 and moves to depth 1, a
close-list marker only at depth 1 and moves to depth 0, a list item only at
depth 1, a paragraph only at depth 0; the sequence must end at depth 0. -/
def nestOK : List (List Char) → Nat → Bool
  | [], d => d == 0
  | b :: bs, d =>
    match tagOf b with
    | BTag.openUl => d == 0 && nestOK bs 1
    | BTag.closeUl => d == 1 && nestOK bs 0
    | BTag.item => d == 1 && nestOK bs d
    | BTag.par => d == 0 && nestOK bs d

example : formatCore "- a\nb".data = "<ul>\n<li>a</li>\n</ul>\n<p>b</p>".data := by decide
example : formatCore "**bold** and plain".data = "<p><b>bold</b> and plain</p>".data := by decide
example : formatCore "- item".data = "<ul>\n<li>item</li>\n</ul>".data := by decide
example : formatCore "  \n \t \n ".data = [] := by decide
example : formatCore "-  a".data = "<ul>\n<li>a</li>\n</ul>".data := by decide
example : subBold "***a**".data = "<b>*a</b>".data := by decide
example : subBold "**a".data = "**a".data := by decide
example : subBold "a ** b ** c ** d".data = "a <b> b </b> c ** d".data := by decide

/-! ### Structure of `splitStars` -/

/-- If `splitStars` finds `**`, the input decomposes around it. -/
theorem splitStars_sound {cs pre rest : List Char}
    (h : splitStars cs = some (pre, rest)) : cs = pre ++ '*' :: '*' :: rest := by
  induction cs generalizing pre rest with
  | nil => simp [splitStars] at h
  | cons c1 tl ih =>
    cases tl with
    | nil => simp [splitStars] at h
    | cons c2 rest' =>
      simp only [splitStars] at h
      split at h
      · next hc =>
        obtain ⟨hc1, hc2⟩ := hc
        simp only [Option.some.injEq, Prod.mk.injEq] at h
        obtain ⟨h1, h2⟩ := h
        subst h1; subst h2; subst hc1; subst hc2
        rfl
      · next hc =>
        split at h
        · exact absurd h (by simp)
        · next p r heq =>
          simp only [Option.some.injEq, Prod.mk.injEq] at h
          obtain ⟨h1, h2⟩ := h
          subst h1; subst h2
          have := ih heq
          rw [this]
          rfl

/-- A non-`'*'` head character is skipped by the `**` search. -/
theorem splitStars_cons_of_ne {c : Char} (t : List Char) (h : c ≠ '*') :
    splitStars (c :: t) = (splitStars t).map (fun pr => (c :: pr.1, pr.2)) := by
  cases t with
  | nil => simp [splitStars]
  | cons c2 rest =>
    simp only [splitStars]
    rw [if_neg (fun hc => h hc.1)]
    cases hs : splitStars (c2 :: rest) with
    | none => simp
    | some pr => simp

/-- Two leading characters whose second is not `'*'` are skipped whole by the
`**` search. -/
theorem splitStars_cons2_of_ne (c1 : Char) {c2 : Char} (t : List Char) (h : c2 ≠ '*') :
    splitStars (c1 :: c2 :: t) = (splitStars t).map (fun pr => (c1 :: c2 :: pr.1, pr.2)) := by
  simp only [splitStars]
  rw [if_neg (fun hc => h hc.2)]
  rw [splitStars_cons_of_ne t h]
  cases splitStars t with
  | none => simp
  | some pr => simp

/-! ### Unfolding `subBold` -/

theorem subBoldFuel_of_none (f : Nat) {cs : List Char} (h : splitStars cs = none) :
    subBoldFuel f cs = cs := by
  cases f <;> simp [subBoldFuel, h]

theorem subBoldFuel_of_noclose (f : Nat) {cs pre rest : List Char}
    (h : splitStars cs = some (pre, rest)) (h2 : splitStars rest = none) :
    subBoldFuel f cs = cs := by
  cases f <;> simp [subBoldFuel, h, h2]

/-- The result of `subBoldFuel` is independent of the fuel once the fuel
dominates the input length. -/
theorem subBoldFuel_congr : ∀ (f1 f2 : Nat) (cs : List Char),
    cs.length ≤ f1 → cs.length ≤ f2 → subBoldFuel f1 cs = subBoldFuel f2 cs := by
  intro f1
  induction f1 with
  | zero =>
    intro f2 cs h1 _
    have hcs : cs = [] := List.length_eq_zero.mp (Nat.le_zero.mp h1)
    subst hcs
    exact (subBoldFuel_of_none f2 (by rfl)).symm
  | succ f1' ih =>
    intro f2 cs h1 h2
    cases hs : splitStars cs with
    | none => rw [subBoldFuel_of_none _ hs, subBoldFuel_of_none _ hs]
    | some pr =>
      obtain ⟨pre, rest⟩ := pr
      cases hr : splitStars rest with
      | none => rw [subBoldFuel_of_noclose _ hs hr, subBoldFuel_of_noclose _ hs hr]
      | some pr2 =>
        obtain ⟨content, rest2⟩ := pr2
        have hcs := splitStars_sound hs
        have hrest := splitStars_sound hr
        have hlen : rest2.length + 4 ≤ cs.length := by
          rw [hcs, hrest]
          simp [List.length_append]
          omega
        cases f2 with
        | zero => omega
        | succ f2' =>
          simp only [subBoldFuel, hs, hr]
          rw [ih f2' rest2 (by omega) (by omega)]

theorem subBold_of_none {cs : List Char} (h : splitStars cs = none) : subBold cs = cs :=
  subBoldFuel_of_none _ h

theorem subBold_of_noclose {cs pre rest : List Char}
    (h : splitStars cs = some (pre, rest)) (h2 : splitStars rest = none) :
    subBold cs = cs :=
  subBoldFuel_of_noclose _ h h2

/-- One substitution step: the prefix before the opening `**` is preserved,
the enclosed text is wrapped in `<b>...</b>`, and the substitution continues
after the closing `**`. -/
theorem subBold_step {cs pre rest content rest2 : List Char}
    (h : splitStars cs = some (pre, rest)) (h2 : splitStars rest = some (content, rest2)) :
    subBold cs =
      pre ++ '<' :: 'b' :: '>' :: (content ++ '<' :: '/' :: 'b' :: '>' :: subBold rest2) := by
  have hcs := splitStars_sound h
  have hrest := splitStars_sound h2
  have hlen : rest2.length + 4 ≤ cs.length := by
    rw [hcs, hrest]
    simp [List.length_append]
    omega
  obtain ⟨n, hn⟩ : ∃ n, cs.length = n + 1 := ⟨cs.length - 1, by omega⟩
  unfold subBold
  rw [hn]
  simp only [subBoldFuel, h, h2]
  rw [subBoldFuel_congr n rest2.length rest2 (by omega) (by omega)]

/-- The substitution leaves an initial two-character segment alone whenever
its second character is not `'*'` (so no `**` can start at position 0 or 1). -/
theorem subBold_cons2 (c1 : Char) {c2 : Char} (t : List Char) (h : c2 ≠ '*') :
    subBold (c1 :: c2 :: t) = c1 :: c2 :: subBold t := by
  cases hs : splitStars t with
  | none =>
    have h1 : splitStars (c1 :: c2 :: t) = none := by
      rw [splitStars_cons2_of_ne c1 t h, hs]
      rfl
    rw [subBold_of_none h1, subBold_of_none hs]
  | some pr =>
    obtain ⟨pre, rest⟩ := pr
    have h1 : splitStars (c1 :: c2 :: t) = some (c1 :: c2 :: pre, rest) := by
      rw [splitStars_cons2_of_ne c1 t h, hs]
      rfl
    cases hr : splitStars rest with
    | none => rw [subBold_of_noclose h1 hr, subBold_of_noclose hs hr]
    | some pr2 =>
      obtain ⟨content, rest2⟩ := pr2
      rw [subBold_step h1 hr, subBold_step hs hr]
      rfl

/-- The bold substitution never changes whether a line starts with a
2-character bullet prefix. -/
theorem startsWithBullet_subBold (s : List Char) :
    startsWithBullet (subBold s) = startsWithBullet s := by
  cases hs : splitStars s with
  | none => rw [subBold_of_none hs]
  | some pr =>
    obtain ⟨pre, rest⟩ := pr
    cases hr : splitStars rest with
    | none => rw [subBold_of_noclose hs hr]
    | some pr2 =>
      obtain ⟨content, rest2⟩ := pr2
      rw [subBold_step hs hr, splitStars_sound hs]
      cases pre with
      | nil => simp [startsWithBullet]
      | cons a pre' =>
        cases pre' with
        | nil => simp [startsWithBullet]
        | cons b pre'' => simp [startsWithBullet]

/-! ### Whitespace stripping -/

theorem dropWhile_append_of_all {w t : List Char} (hw : ∀ c ∈ w, isSpace c = true) :
    (w ++ t).dropWhile isSpace = t.dropWhile isSpace := by
  induction w with
  | nil => rfl
  | cons a w' ih =>
    have ha : isSpace a = true := hw a (List.mem_cons_self a w')
    rw [List.cons_append, List.dropWhile_cons_of_pos ha]
    exact ih (fun c hc => hw c (List.mem_cons_of_mem a hc))

theorem dropWhile_eq_nil_of_all {w : List Char} (hw : ∀ c ∈ w, isSpace c = true) :
    w.dropWhile isSpace = [] := by
  have := @dropWhile_append_of_all w ([] : List Char) hw
  simpa using this

/-- Stripping a whitespace-only list yields the empty list. -/
theorem pyStrip_of_all_space {s : List Char} (h : ∀ c ∈ s, isSpace c = true) :
    pyStrip s = [] := by
  unfold pyStrip
  rw [dropWhile_eq_nil_of_all h]
  rfl

/-- Leading whitespace does not affect stripping. -/
theorem pyStrip_append_left {w t : List Char} (hw : ∀ c ∈ w, isSpace c = true) :
    pyStrip (w ++ t) = pyStrip t := by
  unfold pyStrip
  rw [dropWhile_append_of_all hw]

/-- Trailing whitespace does not affect stripping. -/
theorem pyStrip_append_right {t w : List Char} (hw : ∀ c ∈ w, isSpace c = true) :
    pyStrip (t ++ w) = pyStrip t := by
  unfold pyStrip
  rw [List.dropWhile_append]
  by_cases hnil : (t.dropWhile isSpace).isEmpty
  · rw [if_pos hnil, dropWhile_eq_nil_of_all hw]
    rw [List.isEmpty_iff.mp hnil]
  · rw [if_neg hnil, List.reverse_append]
    rw [dropWhile_append_of_all (fun c hc => hw c (List.mem_reverse.mp hc))]

/-- Every list is its own stripped core surrounded by whitespace. -/
theorem exists_strip_decomposition (s : List Char) :
    ∃ w1 w2, (∀ c ∈ w1, isSpace c = true) ∧ (∀ c ∈ w2, isSpace c = true) ∧
      s = w1 ++ pyStrip s ++ w2 := by
  refine ⟨s.takeWhile isSpace,
    ((s.dropWhile isSpace).reverse.takeWhile isSpace).reverse, ?_, ?_, ?_⟩
  · exact fun c hc => List.mem_takeWhile_imp hc
  · exact fun c hc => List.mem_takeWhile_imp (List.mem_reverse.mp hc)
  · unfold pyStrip
    conv_lhs => rw [← List.takeWhile_append_dropWhile isSpace s]
    rw [List.append_assoc]
    congr 1
    conv_lhs => rw [← List.reverse_reverse (s.dropWhile isSpace),
      ← List.takeWhile_append_dropWhile isSpace (s.dropWhile isSpace).reverse]
    rw [List.reverse_append]

/-! ### Discriminating the four block shapes -/

@[simp] theorem liWrap_ne_ulOpen (c : List Char) : (liWrap c == ulOpen) = false := by
  simp [liWrap, ulOpen]

@[simp] theorem liWrap_ne_ulClose (c : List Char) : (liWrap c == ulClose) = false := by
  simp [liWrap, ulClose]

@[simp] theorem pWrap_ne_ulOpen (c : List Char) : (pWrap c == ulOpen) = false := by
  simp [pWrap, ulOpen]

@[simp] theorem pWrap_ne_ulClose (c : List Char) : (pWrap c == ulClose) = false := by
  simp [pWrap, ulClose]

@[simp] theorem ulOpen_beq_ulClose : (ulOpen == ulClose) = false := by decide

@[simp] theorem ulClose_beq_ulOpen : (ulClose == ulOpen) = false := by decide

@[simp] theorem tagOf_ulOpen : tagOf ulOpen = BTag.openUl := rfl

@[simp] theorem tagOf_ulClose : tagOf ulClose = BTag.closeUl := rfl

@[simp] theorem tagOf_liWrap (c : List Char) : tagOf (liWrap c) = BTag.item := rfl

@[simp] theorem tagOf_pWrap (c : List Char) : tagOf (pWrap c) = BTag.par := rfl

/-! ### The list-balance invariant -/

/-- Running the loop from flag `b` emits exactly one more close-list marker
than open-list markers when `b` is set, and equal numbers otherwise. -/
theorem count_close_processLines (ls : List (List Char)) :
    ∀ b, (processLines ls b).count ulClose
      = (processLines ls b).count ulOpen + (if b then 1 else 0) := by
  induction ls with
  | nil =>
    intro b
    cases b <;> simp [processLines, List.count_cons, List.count_nil]
  | cons line rest ih =>
    intro b
    by_cases h1 : (pyStrip line).isEmpty
    · cases b <;>
        simp [processLines, h1, List.count_append, List.count_cons, ih false]
    · by_cases h2 : startsWithBullet (subBold (pyStrip line))
      · cases b <;>
          simp [processLines, h1, h2, List.count_append, List.count_cons, ih true]
      · cases b <;>
          simp [processLines, h1, h2, List.count_append, List.count_cons, ih false]

/-! ### The well-nesting invariant -/

/-- Running the loop from flag `b` produces a well-nested block sequence
starting at the corresponding depth. -/
theorem nestOK_processLines (ls : List (List Char)) :
    ∀ b, nestOK (processLines ls b) (if b then 1 else 0) = true := by
  induction ls with
  | nil =>
    intro b
    cases b <;> simp [processLines, nestOK]
  | cons line rest ih =>
    intro b
    by_cases h1 : (pyStrip line).isEmpty
    · cases b <;> simpa [processLines, h1, nestOK] using ih false
    · by_cases h2 : startsWithBullet (subBold (pyStrip line))
      · cases b <;> simpa [processLines, h1, h2, nestOK] using ih true
      · cases b <;> simpa [processLines, h1, h2, nestOK] using ih false

/-! ### Classification and the shape of one loop step -/

theorem classifySpec_item_iff {line : List Char} :
    classifySpec line = LineKind.item ↔
      (pyStrip line).isEmpty = false ∧ startsWithBullet (pyStrip line) = true := by
  unfold classifySpec
  by_cases h1 : (pyStrip line).isEmpty
  · simp [h1]
  · by_cases h2 : startsWithBullet (pyStrip line) <;> simp [h1, h2]

theorem classifySpec_par_iff {line : List Char} :
    classifySpec line = LineKind.par ↔
      (pyStrip line).isEmpty = false ∧ startsWithBullet (pyStrip line) = false := by
  unfold classifySpec
  by_cases h1 : (pyStrip line).isEmpty
  · simp [h1]
  · by_cases h2 : startsWithBullet (pyStrip line) <;> simp [h1, h2]

theorem classifySpec_blank_iff {line : List Char} :
    classifySpec line = LineKind.blank ↔ (pyStrip line).isEmpty = true := by
  unfold classifySpec
  by_cases h1 : (pyStrip line).isEmpty
  · simp [h1]
  · by_cases h2 : startsWithBullet (pyStrip line) <;> simp [h1, h2]

/-- One loop step on a list-item line. -/
theorem processLines_cons_item {line : List Char} (rest : List (List Char)) (b : Bool)
    (h : classifySpec line = LineKind.item) :
    processLines (line :: rest) b =
      (if b then [] else [ulOpen]) ++ liWrap (liContent line) :: processLines rest true := by
  obtain ⟨h1, h2⟩ := classifySpec_item_iff.mp h
  have h2' : startsWithBullet (subBold (pyStrip line)) = true := by
    rw [startsWithBullet_subBold]; exact h2
  simp [processLines, h1, h2', liContent]

/-- One loop step on a paragraph line. -/
theorem processLines_cons_par {line : List Char} (rest : List (List Char)) (b : Bool)
    (h : classifySpec line = LineKind.par) :
    processLines (line :: rest) b =
      (if b then [ulClose] else []) ++ pWrap (subBold (pyStrip line)) :: processLines rest false := by
  obtain ⟨h1, h2⟩ := classifySpec_par_iff.mp h
  have h2' : startsWithBullet (subBold (pyStrip line)) = false := by
    rw [startsWithBullet_subBold]; exact h2
  simp [processLines, h1, h2']

/-- One loop step on a blank line. -/
theorem processLines_cons_blank {line : List Char} (rest : List (List Char)) (b : Bool)
    (h : classifySpec line = LineKind.blank) :
    processLines (line :: rest) b =
      (if b then [ulClose] else []) ++ processLines rest false := by
  have h1 := classifySpec_blank_iff.mp h
  simp [processLines, h1]

/-- When the next line is not a list item (or the input has ended), the open
list closes immediately: continuing the loop with the flag set emits exactly
one close-list marker before what the loop emits with the flag clear. -/
theorem processLines_true_of_head_not_item {rest : List (List Char)}
    (h : ∀ l, rest.head? = some l → classifySpec l ≠ LineKind.item) :
    processLines rest true = ulClose :: processLines rest false := by
  cases rest with
  | nil => simp [processLines]
  | cons l r =>
    have hl := h l rfl
    cases hcl : classifySpec l with
    | blank => rw [processLines_cons_blank r true hcl, processLines_cons_blank r false hcl]; simp
    | item => exact absurd hcl hl
    | par => rw [processLines_cons_par r true hcl, processLines_cons_par r false hcl]; simp

/-- A run of list-item lines processed with the flag set emits exactly one
list-item element per line, in order, and nothing else. -/
theorem processLines_run_items {run : List (List Char)} (rest : List (List Char))
    (h : ∀ l ∈ run, classifySpec l = LineKind.item) :
    processLines (run ++ rest) true =
      (run.map fun l => liWrap (liContent l)) ++ processLines rest true := by
  induction run with
  | nil => simp
  | cons l run' ih =>
    have hl : classifySpec l = LineKind.item := h l (List.mem_cons_self l run')
    rw [List.cons_append, processLines_cons_item (run' ++ rest) true hl,
      ih (fun x hx => h x (List.mem_cons_of_mem l hx))]
    simp

/-- The shape of a 2-character bullet prefix. -/
theorem startsWithBullet_shape {s : List Char} (h : startsWithBullet s = true) :
    ∃ c1 t, (c1 = '-' ∨ c1 = '*') ∧ s = c1 :: ' ' :: t := by
  match s with
  | [] => simp [startsWithBullet] at h
  | [c] => simp [startsWithBullet] at h
  | c1 :: c2 :: t =>
    simp only [startsWithBullet, Bool.and_eq_true, Bool.or_eq_true, decide_eq_true_eq] at h
    exact ⟨c1, t, h.1, by rw [h.2]⟩

/-- On a bullet line, removing the 2-character prefix commutes with the bold
substitution (no `**` can overlap the prefix, whose second character is a
space). -/
theorem drop_two_subBold_comm {s : List Char} (h : startsWithBullet s = true) :
    List.drop 2 (subBold s) = subBold (List.drop 2 s) := by
  obtain ⟨c1, t, _, rfl⟩ := startsWithBullet_shape h
  rw [subBold_cons2 c1 t (by decide)]
  simp

/-! ### The claims -/

/-- Claim C1: for every input string, the output contains exactly as many
close-list markers as open-list markers — every list opened is closed by a
subsequent blank line, a subsequent paragraph line, or the post-loop flush,
so the inside-list flag is false at the end of processing. -/
theorem c1_list_balance (input : List Char) :
    (htmlBlocks input).count ulClose = (htmlBlocks input).count ulOpen := by
  unfold htmlBlocks
  simpa using count_close_processLines (splitLines (pyStrip input)) false

/-- Claim C2, counterexample: on the input `"-  a"` (two spaces after the
dash) the emitted list-item element contains `a`, while the trimmed line
with its 2-character bullet prefix removed and bold spans converted — with
nothing else applied — is `" a"`; that block appears nowhere in the output,
so the claim as stated fails. -/
theorem c2_counterexample :
    htmlBlocks "-  a".data = [ulOpen, liWrap "a".data, ulClose] ∧
    subBold (List.drop 2 (pyStrip "-  a".data)) = " a".data ∧
    liWrap (subBold (List.drop 2 (pyStrip "-  a".data))) ∉ htmlBlocks "-  a".data := by
  decide

/-- Claim C2 (amended): for every line classified as list-item, the emitted
list-item element's content equals the trimmed line with its 2-character
bullet prefix removed, balanced double-asterisk spans converted to bold
elements, and the result trimmed of surrounding whitespace. -/
theorem c2_item_content_round_trip {line : List Char} (rest : List (List Char)) (b : Bool)
    (h : classifySpec line = LineKind.item) :
    processLines (line :: rest) b =
      (if b then [] else [ulOpen]) ++
        liWrap (pyStrip (subBold (List.drop 2 (pyStrip line)))) :: processLines rest true := by
  obtain ⟨-, h2⟩ := classifySpec_item_iff.mp h
  have hc : liContent line = pyStrip (subBold (List.drop 2 (pyStrip line))) := by
    unfold liContent
    rw [drop_two_subBold_comm h2]
  rw [processLines_cons_item rest b h, hc]

theorem c2_witness :
    processLines (["-  **x**".data]) false =
      (if false then [] else [ulOpen]) ++
        liWrap (pyStrip (subBold (List.drop 2 (pyStrip "-  **x**".data)))) ::
          processLines [] true :=
  @c2_item_content_round_trip "-  **x**".data [] false (by decide)

/-- Claim C3: for every list-item line, the emitted content is computed in
this order — bold substitution on the full trimmed line first, then the 2
leading bullet characters removed, then the remainder trimmed of
surrounding whitespace. -/
theorem c3_item_content_operation_order {line : List Char} (rest : List (List Char)) (b : Bool)
    (h : classifySpec line = LineKind.item) :
    processLines (line :: rest) b =
      (if b then [] else [ulOpen]) ++
        liWrap (pyStrip (List.drop 2 (subBold (pyStrip line)))) :: processLines rest true := by
  simpa [liContent] using processLines_cons_item rest b h

theorem c3_witness :
    processLines (["- **a** b".data]) false =
      (if false then [] else [ulOpen]) ++
        liWrap (pyStrip (List.drop 2 (subBold (pyStrip "- **a** b".data)))) ::
          processLines [] true :=
  @c3_item_content_operation_order "- **a** b".data [] false (by decide)

/-- Claim C4: the classification of every line is determined by its trimmed
form alone — even though the implementation performs the bullet-prefix test
after the bold substitution, it agrees with classifying the trimmed raw
line for every line. -/
theorem c4_classification_agrees (line : List Char) : classifyImpl line = classifySpec line := by
  unfold classifyImpl classifySpec
  rw [startsWithBullet_subBold]

/-- Claim C5: the bold substitution is non-greedy and left-to-right — a
line with no `**` is unchanged; a line whose only `**` region has no later
`**` to pair with is unchanged (unbalanced delimiters stay literal); when
the first `**` is followed by a later `**`, the text between them is
wrapped in a bold element, the surrounding content is preserved, and the
substitution continues after the closing delimiter (so every independent
span converts); concretely, `"**bold** and plain"` yields one paragraph
containing a bold element around `bold` followed by literal ` and plain`. -/
theorem c5_inline_emphasis :
    (∀ cs : List Char, splitStars cs = none → subBold cs = cs) ∧
    (∀ cs pre rest : List Char, splitStars cs = some (pre, rest) → splitStars rest = none →
      subBold cs = cs) ∧
    (∀ a b c : List Char, '\n' ∉ b →
      splitStars (a ++ '*' :: '*' :: (b ++ '*' :: '*' :: c)) = some (a, b ++ '*' :: '*' :: c) →
      splitStars (b ++ '*' :: '*' :: c) = some (b, c) →
      subBold (a ++ '*' :: '*' :: (b ++ '*' :: '*' :: c)) =
        a ++ '<' :: 'b' :: '>' :: (b ++ '<' :: '/' :: 'b' :: '>' :: subBold c)) ∧
    formatCore "**bold** and plain".data = "<p><b>bold</b> and plain</p>".data := by
  refine ⟨?_, ?_, ?_, ?_⟩
  · exact fun cs h => subBold_of_none h
  · exact fun cs pre rest h h2 => subBold_of_noclose h h2
  · exact fun a b c _ h h2 => subBold_step h h2
  · decide

theorem c5_witness :
    subBold ("x ".data ++ '*' :: '*' :: ("y".data ++ '*' :: '*' :: " z**w".data)) =
      "x ".data ++ '<' :: 'b' :: '>' :: ("y".data ++ '<' :: '/' :: 'b' :: '>' ::
        subBold " z**w".data) :=
  c5_inline_emphasis.2.2.1 "x ".data "y".data " z**w".data (by decide) (by decide) (by decide)

/-- Claim C6: the renderer is a total function (a Lean `def` defined on all
inputs) and produces the empty output both for the empty input and for any
input consisting solely of whitespace (in particular, solely of blank
lines). -/
theorem c6_total_blank_empty :
    formatCore [] = [] ∧
    (∀ s : List Char, (∀ c ∈ s, isSpace c = true) → formatCore s = []) := by
  constructor
  · decide
  · intro s h
    unfold formatCore htmlBlocks
    rw [pyStrip_of_all_space h]
    decide

theorem c6_witness : formatCore " \n \t\n ".data = [] :=
  c6_total_blank_empty.2 " \n \t\n ".data (by decide)

/-- Claim C7: a list-item line immediately followed by a paragraph line
closes the list before emitting the paragraph; concretely `"- a\nb"` yields
exactly the blocks `<ul>`, `<li>a</li>`, `</ul>`, `<p>b</p>` in order. -/
theorem c7_item_then_paragraph :
    (∀ (l1 l2 : List Char) (rest : List (List Char)) (b : Bool),
      classifySpec l1 = LineKind.item → classifySpec l2 = LineKind.par →
      processLines (l1 :: l2 :: rest) b =
        (if b then [] else [ulOpen]) ++
          liWrap (liContent l1) :: ulClose :: pWrap (subBold (pyStrip l2)) ::
            processLines rest false) ∧
    formatCore "- a\nb".data = "<ul>\n<li>a</li>\n</ul>\n<p>b</p>".data := by
  constructor
  · intro l1 l2 rest b h1 h2
    rw [processLines_cons_item (l2 :: rest) b h1, processLines_cons_par rest true h2]
    cases b <;> simp
  · decide

theorem c7_witness :
    processLines (["- a".data, "b".data]) false =
      (if false then [] else [ulOpen]) ++
        liWrap (liContent "- a".data) :: ulClose :: pWrap (subBold (pyStrip "b".data)) ::
          processLines [] false :=
  c7_item_then_paragraph.1 "- a".data "b".data [] false (by decide) (by decide)

/-- Claim C8: a nonempty maximal run of consecutive list-item lines produces
exactly one open-list marker, one list-item element per line in input order,
and exactly one close-list marker, emitted at the next non-item line or end
of input; concretely `"- item"` produces exactly `<ul>`, `<li>item</li>`,
`</ul>`. -/
theorem c8_maximal_run :
    (∀ run rest : List (List Char), run ≠ [] →
      (∀ l ∈ run, classifySpec l = LineKind.item) →
      (∀ l, rest.head? = some l → classifySpec l ≠ LineKind.item) →
      processLines (run ++ rest) false =
        ulOpen :: (run.map fun l => liWrap (liContent l)) ++
          ulClose :: processLines rest false) ∧
    formatCore "- item".data = "<ul>\n<li>item</li>\n</ul>".data := by
  constructor
  · intro run rest hne hall hhead
    obtain ⟨l0, run', rfl⟩ := List.exists_cons_of_ne_nil hne
    rw [List.cons_append,
      processLines_cons_item (run' ++ rest) false (hall l0 (List.mem_cons_self l0 run')),
      processLines_run_items rest (fun x hx => hall x (List.mem_cons_of_mem l0 hx)),
      processLines_true_of_head_not_item hhead]
    simp
  · decide

theorem c8_witness :
    processLines (["- a".data, "* b".data] ++ ["x".data]) false =
      ulOpen :: ((["- a".data, "* b".data]).map fun l => liWrap (liContent l)) ++
        ulClose :: processLines (["x".data]) false :=
  c8_maximal_run.1 ["- a".data, "* b".data] ["x".data] (by decide) (by decide)
    (by
      intro l hl
      have hx : "x".data = l := Option.some.inj hl
      rw [← hx]
      decide)

/-- Claim C9 (implicit): the output is invariant under whitespace
surrounding the whole document — wrapping the input in whitespace-only
strings (including blank lines) does not change the output, and the output
of any input equals the output of its stripped form. -/
theorem c9_whitespace_invariance :
    (∀ s w1 w2 : List Char, (∀ c ∈ w1, isSpace c = true) → (∀ c ∈ w2, isSpace c = true) →
      formatCore (w1 ++ s ++ w2) = formatCore s) ∧
    (∀ s : List Char, formatCore s = formatCore (pyStrip s)) := by
  have key : ∀ s w1 w2 : List Char, (∀ c ∈ w1, isSpace c = true) →
      (∀ c ∈ w2, isSpace c = true) → formatCore (w1 ++ s ++ w2) = formatCore s := by
    intro s w1 w2 h1 h2
    unfold formatCore htmlBlocks
    rw [List.append_assoc, pyStrip_append_left h1, pyStrip_append_right h2]
  constructor
  · exact key
  · intro s
    obtain ⟨w1, w2, h1, h2, hs⟩ := exists_strip_decomposition s
    conv_lhs => rw [hs]
    exact key (pyStrip s) w1 w2 h1 h2

theorem c9_witness : formatCore (" \n".data ++ "a".data ++ "\t".data) = formatCore "a".data :=
  c9_whitespace_invariance.1 "a".data " \n".data "\t".data (by decide) (by decide)

/-- Claim C10 (implicit): in every output the open- and close-list markers
strictly alternate starting with an open marker (depth never exceeds 1 or
goes negative), every list-item element lies strictly between an open
marker and its matching close marker, and every paragraph element lies
outside any list region. -/
theorem c10_well_nested (input : List Char) : nestOK (htmlBlocks input) 0 = true := by
  unfold htmlBlocks
  simpa using nestOK_processLines (splitLines (pyStrip input)) false
